import Mathlib

/-!
# Altair 8800 emulator host: memory bus, register file layout, terminal adapters

A shallow embedding of the C sources

* `src/src/memory.h`        : `read8`, `write8`, `read16`, `write16`
* `src/AltaironAVR/intel8080.h` : the `FLAGS_*` masks and `registers_t`
* `src/src/main.c`          : `term_in`, `term_out`, the front-panel command block of `main`

Machine integers are natural numbers; every conversion to `uint8_t` / `uint16_t`
that the C performs (parameter passing, assignment) is written as an explicit
`% 256` / `% 65536`.  `int` is taken to be at least 32 bits wide, as on the
Linux host `main.c` is written for, so that `64*1024` is `65536` and
`x << 8` of a promoted byte does not overflow.
-/

namespace Altair8800

/-! ## Memory bus (`src/src/memory.h`) -/

/-- The global `uint8_t memory[64*1024]`: 65536 cells, each one byte. -/
abbrev Memory := Fin 65536 → Fin 256

/-- The state of `memory` after `memset(memory, 0, 64*1024)` in `main`. -/
def memory_zero : Memory := fun _ => 0

/-- `uint8_t read8(uint16_t address)`: the argument is converted to `uint16_t`
when it is passed; the array is indexed only under the bounds check, the other
branch yields `0`. -/
def read8 (memory : Memory) (address : Nat) : Nat :=
  let address := address % 65536
  if h : address < 64 * 1024 then (memory ⟨address, h⟩).val else 0

/-- `void write8(uint16_t address, uint8_t val)`: the arguments are converted
to `uint16_t` and `uint8_t` when they are passed; the store happens only under
the bounds check. -/
def write8 (memory : Memory) (address val : Nat) : Memory :=
  let address := address % 65536
  let val := val % 256
  if h : address < 64 * 1024 then
    Function.update memory ⟨address, h⟩ ⟨val, Nat.mod_lt _ (by decide)⟩
  else memory

/-- `uint16_t read16(uint16_t address)`.  `address+1` is computed in `int` and
converted back to `uint16_t` when passed to `read8`; the result is assigned to
a `uint16_t`. -/
def read16 (memory : Memory) (address : Nat) : Nat :=
  let result := read8 memory address
  let result := (result ||| (read8 memory ((address + 1) % 65536) <<< 8)) % 65536
  result

/-- `void write16(uint16_t address, uint16_t val)`. -/
def write16 (memory : Memory) (address val : Nat) : Memory :=
  let memory := write8 memory address (val &&& 0xff)
  write8 memory ((address + 1) % 65536) ((val >>> 8) &&& 0xff)

/-! ## Processor flags and register file (`src/AltaironAVR/intel8080.h`) -/

def FLAGS_CARRY : Nat := 0x1
def FLAGS_PARITY : Nat := 0x4
def FLAGS_H : Nat := 16
def FLAGS_IF : Nat := 32
def FLAGS_ZERO : Nat := 64
def FLAGS_SIGN : Nat := 128

/-- Every `FLAGS_*` mask the header defines (lines 6 to 11), in source order. -/
def FLAGS_defined : List Nat :=
  [FLAGS_CARRY, FLAGS_PARITY, FLAGS_H, FLAGS_IF, FLAGS_ZERO, FLAGS_SIGN]

/-- Bitwise OR of a list of masks. -/
def orAll (masks : List Nat) : Nat := masks.foldl (fun acc m => acc ||| m) 0

/-- The object representation of `registers_t`: four anonymous unions of two
bytes each followed by the two `uint16_t` members `sp` and `pc`; twelve bytes,
no padding. -/
structure registers_t where
  bytes : Fin 12 → Fin 256

/-- The `uint16_t` members of `registers_t`. -/
inductive Reg16
  | af | bc | de | hl | sp | pc
  deriving DecidableEq, Repr

/-- The `uint8_t` members of `registers_t` (members of the anonymous structs
inside the unions), in declaration order. -/
inductive Reg8
  | flags | a | c | b | e | d | l | h
  deriving DecidableEq, Repr

/-- Byte offset of a 16-bit member: each union starts a new 2-byte slot. -/
def Reg16.offset : Reg16 → Fin 11
  | .af => ⟨0, by decide⟩
  | .bc => ⟨2, by decide⟩
  | .de => ⟨4, by decide⟩
  | .hl => ⟨6, by decide⟩
  | .sp => ⟨8, by decide⟩
  | .pc => ⟨10, by decide⟩

/-- Byte offset of an 8-bit member: inside each union the anonymous struct
starts at the union's offset and lays its two members out in declaration order
(`flags` then `a`, `c` then `b`, `e` then `d`, `l` then `h`). -/
def Reg8.offset : Reg8 → Fin 12
  | .flags => ⟨0, by decide⟩
  | .a => ⟨1, by decide⟩
  | .c => ⟨2, by decide⟩
  | .b => ⟨3, by decide⟩
  | .e => ⟨4, by decide⟩
  | .d => ⟨5, by decide⟩
  | .l => ⟨6, by decide⟩
  | .h => ⟨7, by decide⟩

/-- A one-byte load from the object representation. -/
def load8 (r : registers_t) (off : Fin 12) : Nat := (r.bytes off).val

/-- A one-byte store (the value is converted to `uint8_t`). -/
def store8 (r : registers_t) (off : Fin 12) (x : Nat) : registers_t :=
  ⟨Function.update r.bytes off ⟨x % 256, Nat.mod_lt _ (by decide)⟩⟩

/-- A `uint16_t` load on the little-endian targets of the repository (AVR,
ESP32, ARM Linux): the byte at the lower address is the less significant. -/
def load16 (r : registers_t) (off : Fin 11) : Nat :=
  (r.bytes ⟨off.val, by omega⟩).val + 256 * (r.bytes ⟨off.val + 1, by omega⟩).val

/-- A `uint16_t` store on a little-endian target (the value is converted to
`uint16_t`): low byte to the lower address, high byte to the next one. -/
def store16 (r : registers_t) (off : Fin 11) (v : Nat) : registers_t :=
  ⟨Function.update
    (Function.update r.bytes ⟨off.val, by omega⟩ ⟨v % 65536 % 256, Nat.mod_lt _ (by decide)⟩)
    ⟨off.val + 1, by omega⟩ ⟨v % 65536 / 256 % 256, Nat.mod_lt _ (by decide)⟩⟩

/-- Reading an 8-bit member, `regs.x`. -/
def get8 (r : registers_t) (x : Reg8) : Nat := load8 r x.offset

/-- Writing an 8-bit member, `regs.x = v`. -/
def set8 (r : registers_t) (x : Reg8) (v : Nat) : registers_t := store8 r x.offset v

/-- Reading a 16-bit member, `regs.p`. -/
def get16 (r : registers_t) (p : Reg16) : Nat := load16 r p.offset

/-- Writing a 16-bit member, `regs.p = v`. -/
def set16 (r : registers_t) (p : Reg16) (v : Nat) : registers_t := store16 r p.offset v

/-- A register file with every byte zero. -/
def registers_zero : registers_t := ⟨fun _ => 0⟩

/-- The 16-bit member that shares a union with an 8-bit member. -/
def Reg8.pair : Reg8 → Reg16
  | .flags => .af
  | .a => .af
  | .c => .bc
  | .b => .bc
  | .e => .de
  | .d => .de
  | .l => .hl
  | .h => .hl

/-- The other member of the anonymous struct an 8-bit member is declared in. -/
def Reg8.other : Reg8 → Reg8
  | .flags => .a
  | .a => .flags
  | .c => .b
  | .b => .c
  | .e => .d
  | .d => .e
  | .l => .h
  | .h => .l

/-- Whether an 8-bit member is the second member of its anonymous struct
(`a`, `b`, `d`, `h`) rather than the first (`flags`, `c`, `e`, `l`). -/
def Reg8.second : Reg8 → Bool
  | .flags => false
  | .a => true
  | .c => false
  | .b => true
  | .e => false
  | .d => true
  | .l => false
  | .h => true

/-! ## Terminal adapters (`src/src/main.c`) -/

/-- The receive side of `client_sock`, the connected stream socket returned by
`accept` in `main`.  `main` never changes the file status flags of the
descriptor (no `fcntl`, no `ioctl`) and `term_in` passes flags `0` to `recv`,
so the descriptor is in blocking mode and the model carries no mode flag. -/
structure ClientSock where
  /-- Bytes received from the peer and not yet read, oldest first. -/
  pending : List (Fin 256)
  /-- A pending socket error (a reset connection, an interrupted call). -/
  failed : Bool
  /-- The peer has shut the connection down. -/
  peer_closed : Bool

/-- What a call `recv(client_sock, (char*)&b, 1, 0)` that returns leaves
behind: its return value and the content of the one-byte buffer `b` after the
call. -/
structure RecvOutcome where
  ret : Int
  b : Fin 256

/-- The library call `recv(client_sock, (char*)&b, 1, 0)` on a blocking stream
socket; `b0` is the content of the uninitialised local `b` before the call.
Queued data is delivered first (one byte, return value `1`); without data an
error returns `-1` and a closed connection returns `0`, both leaving the buffer
untouched; with nothing pending on an open connection the call waits and does
not return (`none`). -/
def recv (s : ClientSock) (b0 : Fin 256) : Option RecvOutcome :=
  match s.pending with
  | b :: _ => some ⟨1, b⟩
  | [] =>
    if s.failed then some ⟨-1, b0⟩
    else if s.peer_closed then some ⟨0, b0⟩
    else none

/-- `uint8_t term_in()`: `none` when the call inside does not return,
otherwise the byte returned. -/
def term_in (s : ClientSock) (b0 : Fin 256) : Option Nat :=
  match recv s b0 with
  | none => none
  | some r => if r.ret ≠ 1 then some 0 else some r.b.val

/-- `void term_out(uint8_t b)`: the list of bytes handed to `send`. -/
def term_out (b : Nat) : List Nat :=
  let b := (b &&& 0x7f) % 256
  [b]

/-! ## Front-panel command block of `main` (`src/src/main.c`, lines 220 to 278) -/

/-- The switch masks and mode values of `pi_panel.h`, a header that is not
part of the inspected sources: they are parameters of the model. -/
structure PanelConsts where
  STOP : Nat
  RUN : Nat
  SINGLE_STEP : Nat
  EXAMINE : Nat
  EXAMINE_NEXT : Nat
  DEPOSIT : Nat
  DEPOSIT_NEXT : Nat
  RUN_CMD : Nat
  STOP_CMD : Nat
  AUX1_UP : Nat
  AUX1_DOWN : Nat

/-- The calls into the CPU core and the loaders that the command block makes;
the core functions are declared in `intel8080.h` and defined elsewhere. -/
inductive HostCall
  | i8080_examine (address : Nat)
  | i8080_cycle
  | i8080_examine_next
  | i8080_deposit (data : Nat)
  | i8080_deposit_next (data : Nat)
  | load_roms
  | fopen_disks
  deriving DecidableEq, Repr

/-- The body of `if(mode == STOP) { ... }` (lines 225 to 269): the calls made,
in order, and the resulting mode.  `printf` calls are left out. -/
def stop_block (K : PanelConsts) (mode cmd_switches bus_switches : Nat) :
    List HostCall × Nat :=
  let calls : List HostCall := []
  let calls := if cmd_switches &&& K.STOP ≠ 0 then
    calls ++ [HostCall.i8080_examine 0] else calls
  let calls := if cmd_switches &&& K.SINGLE_STEP ≠ 0 then
    calls ++ [HostCall.i8080_cycle] else calls
  let calls := if cmd_switches &&& K.EXAMINE ≠ 0 then
    calls ++ [HostCall.i8080_examine (bus_switches % 65536)] else calls
  let calls := if cmd_switches &&& K.EXAMINE_NEXT ≠ 0 then
    calls ++ [HostCall.i8080_examine_next] else calls
  let calls := if cmd_switches &&& K.DEPOSIT ≠ 0 then
    calls ++ [HostCall.i8080_deposit ((bus_switches &&& 0xff) % 256)] else calls
  let calls := if cmd_switches &&& K.DEPOSIT_NEXT ≠ 0 then
    calls ++ [HostCall.i8080_deposit ((bus_switches &&& 0xff) % 256)] else calls
  let mode := if cmd_switches &&& K.RUN_CMD ≠ 0 then K.RUN % 256 else mode
  let calls := if cmd_switches &&& K.AUX1_UP ≠ 0 then
    calls ++ [HostCall.load_roms] else calls
  let calls := if cmd_switches &&& K.AUX1_DOWN ≠ 0 then
    calls ++ [HostCall.load_roms, HostCall.fopen_disks] else calls
  (calls, mode)

/-- The block run for a debounced command word (lines 220 to 278): nothing
happens unless the word differs from `cmd_state`; otherwise the STOP-mode
block and then the RUN-mode block are applied.  Returns the calls made, the
new mode and the new `cmd_state`. -/
def panel_command (K : PanelConsts) (mode cmd_state cmd_switches bus_switches : Nat) :
    List HostCall × Nat × Nat :=
  if cmd_switches ≠ cmd_state then
    let cmd_state := cmd_switches % 256
    let r := if mode = K.STOP then stop_block K mode cmd_switches bus_switches
             else ([], mode)
    let mode := r.2
    let mode := if mode = K.RUN then
        (if cmd_switches &&& K.STOP_CMD ≠ 0 then K.STOP % 256 else mode)
      else mode
    (r.1, mode, cmd_state)
  else ([], mode, cmd_state)

/-- A sample assignment of distinct single-bit switch masks and of the two
mode values, used to evaluate the block on concrete words. -/
def sampleConsts : PanelConsts where
  STOP := 0x01
  RUN := 0x02
  SINGLE_STEP := 0x04
  EXAMINE := 0x08
  EXAMINE_NEXT := 0x10
  DEPOSIT := 0x20
  DEPOSIT_NEXT := 0x40
  RUN_CMD := 0x80
  STOP_CMD := 0x100
  AUX1_UP := 0x200
  AUX1_DOWN := 0x400

/-! ### Helper lemmas -/

theorem byte_or_shift (lo hi : Nat) (hlo : lo < 256) :
    lo ||| (hi <<< 8) = lo + 256 * hi := by
  have h := Nat.mul_add_lt_is_or (i := 8) (b := lo) (by simpa using hlo) hi
  rw [Nat.shiftLeft_eq, Nat.or_comm, Nat.mul_comm hi]
  simpa [Nat.add_comm] using h.symm

theorem and_ff (v : Nat) : v &&& 0xff = v % 256 :=
  Nat.and_pow_two_sub_one_eq_mod v 8

theorem read8_eq (memory : Memory) (n : Nat) :
    read8 memory n = (memory ⟨n % 65536, Nat.mod_lt _ (by decide)⟩).val := by
  unfold read8
  have h : n % 65536 < 64 * 1024 := Nat.mod_lt _ (by decide)
  simp only
  rw [dif_pos h]

theorem write8_eq (memory : Memory) (n v : Nat) :
    write8 memory n v
      = Function.update memory ⟨n % 65536, Nat.mod_lt _ (by decide)⟩
          ⟨v % 256, Nat.mod_lt _ (by decide)⟩ := by
  unfold write8
  have h : n % 65536 < 64 * 1024 := Nat.mod_lt _ (by decide)
  simp only
  rw [dif_pos h]

theorem cell_mod (memory : Memory) (a : Nat) (h : a < 65536) :
    memory ⟨a % 65536, Nat.mod_lt _ (by decide)⟩ = memory ⟨a, h⟩ := by
  congr 1
  exact Fin.ext (Nat.mod_eq_of_lt h)

theorem read8_in_range (memory : Memory) (a : Nat) (h : a < 65536) :
    read8 memory a = (memory ⟨a, h⟩).val := by
  rw [read8_eq, cell_mod memory a h]

theorem read8_lt (memory : Memory) (a : Nat) : read8 memory a < 256 := by
  rw [read8_eq]
  exact Fin.is_lt _

theorem read8_write8_same (memory : Memory) (a v : Nat) :
    read8 (write8 memory a v) a = v % 256 := by
  rw [read8_eq, write8_eq, Function.update_same]

theorem read8_write8_other (memory : Memory) (a b v : Nat) (ha : a < 65536)
    (hb : b < 65536) (hab : b ≠ a) :
    read8 (write8 memory a v) b = read8 memory b := by
  rw [read8_eq, read8_eq, write8_eq]
  have hne : (⟨b % 65536, Nat.mod_lt _ (by decide)⟩ : Fin 65536)
      ≠ ⟨a % 65536, Nat.mod_lt _ (by decide)⟩ := by
    intro hc
    have hv := Fin.mk.inj_iff.mp hc
    rw [Nat.mod_eq_of_lt ha, Nat.mod_eq_of_lt hb] at hv
    exact hab hv
  rw [Function.update_noteq hne]

theorem succ_mod_ne (a : Nat) : (a + 1) % 65536 ≠ a := by
  omega

theorem read16_eq (memory : Memory) (a : Nat) :
    read16 memory a = read8 memory a + 256 * read8 memory ((a + 1) % 65536) := by
  unfold read16
  have h1 := read8_lt memory a
  have h2 := read8_lt memory ((a + 1) % 65536)
  simp only
  rw [byte_or_shift _ _ h1]
  omega


theorem shift8_and_ff (v : Nat) : (v >>> 8) &&& 0xff = v / 256 % 256 := by
  rw [and_ff, Nat.shiftRight_eq_div_pow]

/-! ## Memory bus -/

/-- C1: for every 16-bit address `a` and every memory content, `read16 a` is
`memory[a] + 256 * memory[(a + 1) mod 65536]`; at `0xFFFF` the low byte of the
result is the byte at `0xFFFF` and the high byte is the byte at address `0`. -/
theorem read16_little_endian (memory : Memory) (a : Nat) (ha : a < 65536) :
    read16 memory a
        = (memory ⟨a, ha⟩).val
          + 256 * (memory ⟨(a + 1) % 65536, Nat.mod_lt _ (by decide)⟩).val
      ∧ read16 memory 0xFFFF % 256 = (memory ⟨0xFFFF, by decide⟩).val
      ∧ read16 memory 0xFFFF / 256 = (memory ⟨0, by decide⟩).val := by
  have hb : ∀ i : Fin 65536, (memory i).val < 256 := fun i => Fin.is_lt _
  refine ⟨?_, ?_, ?_⟩
  · rw [read16_eq, read8_in_range memory a ha,
      read8_in_range memory ((a + 1) % 65536) (Nat.mod_lt _ (by decide))]
  · rw [read16_eq, read8_in_range memory 0xFFFF (by decide),
      read8_in_range memory ((0xFFFF + 1) % 65536) (by decide)]
    have h1 := hb ⟨0xFFFF, by decide⟩
    omega
  · rw [read16_eq, read8_in_range memory 0xFFFF (by decide),
      read8_in_range memory ((0xFFFF + 1) % 65536) (by decide)]
    have h1 := hb ⟨0xFFFF, by decide⟩
    have h2 : (memory ⟨(0xFFFF + 1) % 65536, by decide⟩) = memory ⟨0, by decide⟩ := rfl
    rw [h2]
    omega

theorem read16_little_endian_witness :
    read16 (write8 (write8 memory_zero 0xFFFF 0x34) 0 0x12) 0xFFFF
        = ((write8 (write8 memory_zero 0xFFFF 0x34) 0 0x12) ⟨0xFFFF, by decide⟩).val
          + 256 * ((write8 (write8 memory_zero 0xFFFF 0x34) 0 0x12)
              ⟨(0xFFFF + 1) % 65536, Nat.mod_lt _ (by decide)⟩).val
      ∧ read16 (write8 (write8 memory_zero 0xFFFF 0x34) 0 0x12) 0xFFFF % 256
        = ((write8 (write8 memory_zero 0xFFFF 0x34) 0 0x12) ⟨0xFFFF, by decide⟩).val
      ∧ read16 (write8 (write8 memory_zero 0xFFFF 0x34) 0 0x12) 0xFFFF / 256
        = ((write8 (write8 memory_zero 0xFFFF 0x34) 0 0x12) ⟨0, by decide⟩).val :=
  read16_little_endian (write8 (write8 memory_zero 0xFFFF 0x34) 0 0x12) 0xFFFF (by decide)

/-- C2: for every 16-bit address `a` and byte `v`, after `write8 a v` a
`read8 a` returns `v`, and `read8 b` at any other address `b` returns what it
returned before the write. -/
theorem write8_then_read8 (memory : Memory) (a v : Nat) (ha : a < 65536) (hv : v < 256) :
    read8 (write8 memory a v) a = v
      ∧ ∀ b : Nat, b < 65536 → b ≠ a → read8 (write8 memory a v) b = read8 memory b := by
  refine ⟨?_, ?_⟩
  · rw [read8_write8_same memory a v]
    exact Nat.mod_eq_of_lt hv
  · intro b hb hab
    exact read8_write8_other memory a b v ha hb hab

theorem write8_then_read8_witness :
    read8 (write8 memory_zero 0x1234 0xAB) 0x1234 = 0xAB
      ∧ ∀ b : Nat, b < 65536 → b ≠ 0x1234 →
          read8 (write8 memory_zero 0x1234 0xAB) b = read8 memory_zero b :=
  write8_then_read8 memory_zero 0x1234 0xAB (by decide) (by decide)

/-- C3: for every 16-bit address `a` (the wrapping address `0xFFFF` included)
and every 16-bit value `v`, `write16 a v` followed by `read16 a` returns `v`. -/
theorem write16_then_read16 (memory : Memory) (a v : Nat) (ha : a < 65536)
    (hv : v < 65536) :
    read16 (write16 memory a v) a = v := by
  have hne : (a + 1) % 65536 ≠ a := succ_mod_ne a
  have hlt : (a + 1) % 65536 < 65536 := Nat.mod_lt _ (by decide)
  rw [read16_eq]
  unfold write16
  simp only
  rw [read8_write8_other _ _ _ _ hlt ha hne.symm, read8_write8_same,
    read8_write8_same, and_ff, shift8_and_ff]
  omega

theorem write16_then_read16_witness :
    read16 (write16 memory_zero 0xFFFF 0xBEEF) 0xFFFF = 0xBEEF :=
  write16_then_read16 memory_zero 0xFFFF 0xBEEF (by decide) (by decide)

/-- C4: `read8` and `write8` are total and index the array only below 65536.
For every 16-bit address `a` the bounds check holds, so `read8 a` is
`memory[a]` and `write8 a v` performs its store at `a`.  The other branch
(read `0`, write dropped) is never taken: whatever value is passed, the
`uint16_t` parameter holds it modulo 65536, which is below the bound, so the
call reads or stores the cell at that reduced address. -/
theorem read8_write8_bounds (memory : Memory) (a v : Nat) (ha : a < 65536) :
    read8 memory a = (memory ⟨a, ha⟩).val
      ∧ write8 memory a v
          = Function.update memory ⟨a, ha⟩ ⟨v % 256, Nat.mod_lt _ (by decide)⟩
      ∧ (∀ n : Nat,
          read8 memory n = (memory ⟨n % 65536, Nat.mod_lt _ (by decide)⟩).val
            ∧ write8 memory n v
                = Function.update memory ⟨n % 65536, Nat.mod_lt _ (by decide)⟩
                    ⟨v % 256, Nat.mod_lt _ (by decide)⟩) := by
  refine ⟨read8_in_range memory a ha, ?_, ?_⟩
  · rw [write8_eq]
    have hidx : (⟨a % 65536, Nat.mod_lt _ (by decide)⟩ : Fin 65536) = ⟨a, ha⟩ :=
      Fin.mk.inj_iff.mpr (Nat.mod_eq_of_lt ha)
    rw [hidx]
  · intro n
    exact ⟨read8_eq memory n, write8_eq memory n v⟩

theorem read8_write8_bounds_witness :
    (read8 (write8 memory_zero 0xFFFF 0x77) 0xFFFF
          = ((write8 memory_zero 0xFFFF 0x77) ⟨0xFFFF, by decide⟩).val
      ∧ write8 (write8 memory_zero 0xFFFF 0x77) 0xFFFF 0x5A
          = Function.update (write8 memory_zero 0xFFFF 0x77) ⟨0xFFFF, by decide⟩
              ⟨0x5A % 256, Nat.mod_lt _ (by decide)⟩
      ∧ (∀ n : Nat,
          read8 (write8 memory_zero 0xFFFF 0x77) n
              = ((write8 memory_zero 0xFFFF 0x77)
                  ⟨n % 65536, Nat.mod_lt _ (by decide)⟩).val
            ∧ write8 (write8 memory_zero 0xFFFF 0x77) n 0x5A
                = Function.update (write8 memory_zero 0xFFFF 0x77)
                    ⟨n % 65536, Nat.mod_lt _ (by decide)⟩
                    ⟨0x5A % 256, Nat.mod_lt _ (by decide)⟩))
      ∧ read8 (write8 memory_zero 0xFFFF 0x77) 0xFFFF = 0x77
      ∧ read8 (write8 (write8 memory_zero 0xFFFF 0x77) 0xFFFF 0x5A) 0xFFFF = 0x5A
      ∧ read8 (write8 memory_zero 0xFFFF 0x77) 0 = 0 :=
  ⟨read8_write8_bounds (write8 memory_zero 0xFFFF 0x77) 0xFFFF 0x5A (by decide),
    by decide, by decide, by decide⟩

/-! ## Register file -/

theorem load8_store8 (r : registers_t) (o o' : Fin 12) (x : Nat) :
    load8 (store8 r o x) o' = if o'.val = o.val then x % 256 else load8 r o' := by
  unfold load8 store8
  by_cases h : o' = o
  · subst h
    simp
  · have hv : o'.val ≠ o.val := fun hc => h (Fin.ext hc)
    simp only [Function.update_noteq h, if_neg hv]

theorem store16_eq (r : registers_t) (off : Fin 11) (v : Nat) :
    store16 r off v
      = store8 (store8 r ⟨off.val, by omega⟩ (v % 65536 % 256))
          ⟨off.val + 1, by omega⟩ (v % 65536 / 256 % 256) := by
  unfold store16 store8
  simp only [Nat.mod_mod]

theorem load16_eq (r : registers_t) (off : Fin 11) :
    load16 r off = load8 r ⟨off.val, by omega⟩ + 256 * load8 r ⟨off.val + 1, by omega⟩ :=
  rfl

/-- C5: for each register pair (`af`, `bc`, `de`, `hl`) and every 16-bit value
`v`, after storing `v` in the 16-bit view the low half (`flags`, `c`, `e`,
`l`) reads `v mod 256`, the high half (`a`, `b`, `d`, `h`) reads `v / 256`, and
the 16-bit view reads back `v`. -/
theorem set16_then_halves (r : registers_t) (v : Nat) (hv : v < 65536) :
    (get8 (set16 r Reg16.af v) Reg8.flags = v % 256
        ∧ get8 (set16 r Reg16.af v) Reg8.a = v / 256
        ∧ get16 (set16 r Reg16.af v) Reg16.af = v)
      ∧ (get8 (set16 r Reg16.bc v) Reg8.c = v % 256
        ∧ get8 (set16 r Reg16.bc v) Reg8.b = v / 256
        ∧ get16 (set16 r Reg16.bc v) Reg16.bc = v)
      ∧ (get8 (set16 r Reg16.de v) Reg8.e = v % 256
        ∧ get8 (set16 r Reg16.de v) Reg8.d = v / 256
        ∧ get16 (set16 r Reg16.de v) Reg16.de = v)
      ∧ (get8 (set16 r Reg16.hl v) Reg8.l = v % 256
        ∧ get8 (set16 r Reg16.hl v) Reg8.h = v / 256
        ∧ get16 (set16 r Reg16.hl v) Reg16.hl = v) := by
  simp only [get8, get16, set16, store16_eq, load16_eq, load8_store8, Reg8.offset,
    Reg16.offset]
  norm_num
  omega

theorem set16_then_halves_witness :
    (get8 (set16 registers_zero Reg16.af 0x12F3) Reg8.flags = 0x12F3 % 256
        ∧ get8 (set16 registers_zero Reg16.af 0x12F3) Reg8.a = 0x12F3 / 256
        ∧ get16 (set16 registers_zero Reg16.af 0x12F3) Reg16.af = 0x12F3)
      ∧ (get8 (set16 registers_zero Reg16.bc 0x12F3) Reg8.c = 0x12F3 % 256
        ∧ get8 (set16 registers_zero Reg16.bc 0x12F3) Reg8.b = 0x12F3 / 256
        ∧ get16 (set16 registers_zero Reg16.bc 0x12F3) Reg16.bc = 0x12F3)
      ∧ (get8 (set16 registers_zero Reg16.de 0x12F3) Reg8.e = 0x12F3 % 256
        ∧ get8 (set16 registers_zero Reg16.de 0x12F3) Reg8.d = 0x12F3 / 256
        ∧ get16 (set16 registers_zero Reg16.de 0x12F3) Reg16.de = 0x12F3)
      ∧ (get8 (set16 registers_zero Reg16.hl 0x12F3) Reg8.l = 0x12F3 % 256
        ∧ get8 (set16 registers_zero Reg16.hl 0x12F3) Reg8.h = 0x12F3 / 256
        ∧ get16 (set16 registers_zero Reg16.hl 0x12F3) Reg16.hl = 0x12F3) :=
  set16_then_halves registers_zero 0x12F3 (by decide)

/-- C6: for each 8-bit half `t` and every byte `x`, writing `x` to `t` leaves
every other 8-bit half (the other half of its pair in particular) and every
16-bit member other than its own pair (`sp` and `pc` included) unchanged, and
the pair then reads as the new half combined with the untouched half. -/
theorem set8_frame (r : registers_t) (t : Reg8) (x : Nat) (hx : x < 256) :
    get8 (set8 r t x) t = x
      ∧ get8 (set8 r t x) t.other = get8 r t.other
      ∧ (∀ u : Reg8, u ≠ t → get8 (set8 r t x) u = get8 r u)
      ∧ (∀ p : Reg16, p ≠ t.pair → get16 (set8 r t x) p = get16 r p)
      ∧ get16 (set8 r t x) Reg16.sp = get16 r Reg16.sp
      ∧ get16 (set8 r t x) Reg16.pc = get16 r Reg16.pc
      ∧ get16 (set8 r t x) t.pair
          = (if t.second then get8 r t.other + 256 * x else x + 256 * get8 r t.other) := by
  have hx' : x % 256 = x := Nat.mod_eq_of_lt hx
  refine ⟨?_, ?_, ?_, ?_, ?_, ?_, ?_⟩
  · rw [get8, set8, load8_store8, if_pos rfl, hx']
  · cases t <;>
      simp only [get8, set8, load8_store8, Reg8.offset, Reg8.other] <;>
      norm_num
  · intro u hu
    cases t <;> cases u <;>
      first
        | exact absurd rfl hu
        | (simp only [get8, set8, load8_store8, Reg8.offset]
           norm_num)
  · intro p hp
    cases t <;> cases p <;>
      first
        | exact absurd rfl hp
        | (simp only [get16, set8, load16_eq, load8_store8, Reg8.offset, Reg16.offset]
           norm_num)
  · cases t <;>
      simp only [get16, set8, load16_eq, load8_store8, Reg8.offset, Reg16.offset] <;>
      norm_num
  · cases t <;>
      simp only [get16, set8, load16_eq, load8_store8, Reg8.offset, Reg16.offset] <;>
      norm_num
  · cases t <;>
      simp only [get8, get16, set8, load16_eq, load8_store8, Reg8.offset, Reg16.offset,
        Reg8.pair, Reg8.other, Reg8.second, hx'] <;>
      norm_num

theorem set8_frame_witness :
    get8 (set8 (set16 registers_zero Reg16.hl 0x1234) Reg8.h 0xAB) Reg8.h = 0xAB
      ∧ get8 (set8 (set16 registers_zero Reg16.hl 0x1234) Reg8.h 0xAB) (Reg8.other Reg8.h)
          = get8 (set16 registers_zero Reg16.hl 0x1234) (Reg8.other Reg8.h)
      ∧ (∀ u : Reg8, u ≠ Reg8.h →
          get8 (set8 (set16 registers_zero Reg16.hl 0x1234) Reg8.h 0xAB) u
            = get8 (set16 registers_zero Reg16.hl 0x1234) u)
      ∧ (∀ p : Reg16, p ≠ Reg8.pair Reg8.h →
          get16 (set8 (set16 registers_zero Reg16.hl 0x1234) Reg8.h 0xAB) p
            = get16 (set16 registers_zero Reg16.hl 0x1234) p)
      ∧ get16 (set8 (set16 registers_zero Reg16.hl 0x1234) Reg8.h 0xAB) Reg16.sp
          = get16 (set16 registers_zero Reg16.hl 0x1234) Reg16.sp
      ∧ get16 (set8 (set16 registers_zero Reg16.hl 0x1234) Reg8.h 0xAB) Reg16.pc
          = get16 (set16 registers_zero Reg16.hl 0x1234) Reg16.pc
      ∧ get16 (set8 (set16 registers_zero Reg16.hl 0x1234) Reg8.h 0xAB) (Reg8.pair Reg8.h)
          = (if Reg8.second Reg8.h
              then get8 (set16 registers_zero Reg16.hl 0x1234) (Reg8.other Reg8.h) + 256 * 0xAB
              else 0xAB + 256 * get8 (set16 registers_zero Reg16.hl 0x1234) (Reg8.other Reg8.h)) :=
  set8_frame (set16 registers_zero Reg16.hl 0x1234) Reg8.h 0xAB (by decide)

/-! ## Flag masks -/

/-- C7, as stated, fails: the OR of the defined `FLAGS_*` masks is not `0xD5`,
because the header also defines `FLAGS_IF`, a mask for bit 5, which lies
outside `0xD5`. -/
theorem flags_or_ne_D5 :
    orAll FLAGS_defined ≠ 0xD5
      ∧ FLAGS_IF ∈ FLAGS_defined ∧ FLAGS_IF = 0x20 ∧ FLAGS_IF &&& 0xD5 = 0 := by
  decide

/-- C7, amended: the defined masks are carry, parity, half-carry,
interrupt-enable, zero and sign (`0x01, 0x04, 0x10, 0x20, 0x40, 0x80`), their
OR is `0xF5`, and bits 1 and 3 are the bits of the flags byte that no mask
covers. -/
theorem flags_or_eq_F5 :
    FLAGS_defined = [0x01, 0x04, 0x10, 0x20, 0x40, 0x80]
      ∧ orAll FLAGS_defined = 0xF5
      ∧ 0xFF ^^^ orAll FLAGS_defined = 0x0A := by
  decide

/-! ## Terminal adapters -/

/-- C8, as stated, fails: with nothing pending on the open connection the
`recv` call inside `term_in` waits, so `term_in` does not return the sentinel
`0` (it does not return at all), whatever the buffer held before. -/
theorem term_in_nothing_pending_blocks :
    term_in ⟨[], false, false⟩ 0 ≠ some 0
      ∧ term_in ⟨[], false, false⟩ 0 = none := by
  decide

/-- C8, amended: `term_in` returns the received byte when the receive call
delivers one byte (data is queued), and returns the sentinel `0` when the
receive call ends in an error or a closed connection; a value it returns is
always one of these two, never the prior content of the buffer as such.  With
nothing pending on an open, error-free connection it does not return. -/
theorem term_in_byte_or_sentinel (s : ClientSock) (b0 : Fin 256) :
    (∀ (b : Fin 256) (rest : List (Fin 256)),
        s.pending = b :: rest → term_in s b0 = some b.val)
      ∧ (s.pending = [] → s.failed = true ∨ s.peer_closed = true →
          term_in s b0 = some 0)
      ∧ (∀ x : Nat, term_in s b0 = some x →
          x = 0 ∨ ∃ (b : Fin 256) (rest : List (Fin 256)),
            s.pending = b :: rest ∧ x = b.val)
      ∧ (s.pending = [] → s.failed = false → s.peer_closed = false →
          term_in s b0 = none) := by
  obtain ⟨pending, failed, peer_closed⟩ := s
  cases pending with
  | nil =>
    cases failed <;> cases peer_closed <;> simp [term_in, recv]
  | cons b rest =>
    simp [term_in, recv]

theorem term_in_byte_or_sentinel_witness :
    term_in ⟨[0x41, 0x42], false, false⟩ 0x99 = some 0x41
      ∧ term_in ⟨[], true, false⟩ 0x99 = some 0
      ∧ term_in ⟨[], false, true⟩ 0x99 = some 0
      ∧ term_in ⟨[], false, false⟩ 0x99 = none :=
  ⟨(term_in_byte_or_sentinel ⟨[0x41, 0x42], false, false⟩ 0x99).1 0x41 [0x42] rfl,
    (term_in_byte_or_sentinel ⟨[], true, false⟩ 0x99).2.1 rfl (Or.inl rfl),
    (term_in_byte_or_sentinel ⟨[], false, true⟩ 0x99).2.1 rfl (Or.inr rfl),
    (term_in_byte_or_sentinel ⟨[], false, false⟩ 0x99).2.2.2 rfl rfl rfl⟩

/-- C10: for every byte `b` (and in fact every argument value), `term_out`
hands exactly `b AND 0x7F` to `send`: the byte sent is at most `0x7F`, is `b`
itself when `b < 0x80`, and is the same for `b` and for `b` with bit 7
flipped. -/
theorem term_out_strips_bit7 (b : Nat) :
    term_out b = [b &&& 0x7F]
      ∧ (∀ t ∈ term_out b, t ≤ 0x7F)
      ∧ (b < 0x80 → term_out b = [b])
      ∧ term_out (b ^^^ 0x80) = term_out b := by
  have hand : b &&& 0x7F = b % 128 := Nat.and_pow_two_sub_one_eq_mod b 7
  have hxor : (b ^^^ 0x80) &&& 0x7F = b % 128 := by
    rw [Nat.and_xor_distrib_right, hand]
    show b % 128 ^^^ 0 = b % 128
    exact Nat.xor_zero _
  have hlt : b % 128 % 256 = b % 128 := by omega
  have hout : ∀ n : Nat, term_out n = [(n &&& 0x7F) % 256] := fun _ => rfl
  rw [hout b, hout (b ^^^ 0x80), hand, hxor, hlt]
  refine ⟨rfl, ?_, ?_, rfl⟩
  · intro t ht
    rw [List.mem_singleton] at ht
    omega
  · intro h
    rw [Nat.mod_eq_of_lt h]

theorem term_out_strips_bit7_witness :
    term_out 0xC1 = [0xC1 &&& 0x7F]
      ∧ (∀ t ∈ term_out 0xC1, t ≤ 0x7F)
      ∧ (0xC1 < 0x80 → term_out 0xC1 = [0xC1])
      ∧ term_out (0xC1 ^^^ 0x80) = term_out 0xC1 :=
  term_out_strips_bit7 0xC1

/-! ## Front-panel command block -/

theorem not_mem_ite_append {α : Type} (d : α) (l xs : List α) (c : Prop) [Decidable c]
    (hl : d ∉ l) (hx : d ∉ xs) : d ∉ (if c then l ++ xs else l) := by
  split
  · intro h
    rcases List.mem_append.mp h with h | h
    · exact hl h
    · exact hx h
  · exact hl

theorem stop_block_no_deposit_next (K : PanelConsts) (mode cmd bus d : Nat) :
    HostCall.i8080_deposit_next d ∉ (stop_block K mode cmd bus).1 := by
  unfold stop_block
  dsimp only
  repeat' (first | apply not_mem_ite_append | simp)

theorem panel_command_calls (K : PanelConsts) (mode cmd_state cmd bus : Nat) :
    (panel_command K mode cmd_state cmd bus).1 = (stop_block K mode cmd bus).1
      ∨ (panel_command K mode cmd_state cmd bus).1 = [] := by
  unfold panel_command
  by_cases h1 : cmd ≠ cmd_state
  · by_cases h2 : mode = K.STOP
    · left
      rw [if_pos h1]
      dsimp only
      rw [if_pos h2]
    · right
      rw [if_pos h1]
      dsimp only
      rw [if_neg h2]
  · right
    rw [if_neg h1]

/-- C9, on the code: whatever the switch masks are, the command block never
calls `i8080_deposit_next`; with the `DEPOSIT_NEXT` bit set in STOP mode it
calls `i8080_deposit` with the low byte of the bus switches, exactly as it does
for the `DEPOSIT` bit. -/
theorem deposit_next_calls_deposit :
    (∀ (K : PanelConsts) (mode cmd_state cmd bus d : Nat),
        HostCall.i8080_deposit_next d ∉ (panel_command K mode cmd_state cmd bus).1)
      ∧ panel_command sampleConsts sampleConsts.STOP 0 sampleConsts.DEPOSIT_NEXT 0x1242
          = ([HostCall.i8080_deposit 0x42], sampleConsts.STOP, 0x40)
      ∧ (panel_command sampleConsts sampleConsts.STOP 0 sampleConsts.DEPOSIT_NEXT 0x1242).1
          = (panel_command sampleConsts sampleConsts.STOP 0 sampleConsts.DEPOSIT 0x1242).1 := by
  refine ⟨?_, by decide, by decide⟩
  intro K mode cmd_state cmd bus d
  rcases panel_command_calls K mode cmd_state cmd bus with h | h
  · rw [h]
    exact stop_block_no_deposit_next K mode cmd bus d
  · rw [h]
    exact List.not_mem_nil _

end Altair8800
